import Mathlib

/-!
Verification development for the fault-tolerant allreduce engine
(`src/src/allreduce_robust.cc` of the repository).  The C++ functions are
shallowly embedded as Lean functions; machine `int` values are embedded as
`Int` with the bound `intMax = 2^31 - 1` made explicit where the code
compares against `std::numeric_limits<int>::max()`.  Types that live in the
repository's headers (not part of the provided sources) are modelled from
the specification and carry a doc comment saying so.
-/

namespace RabitRobust

/-- The value of `std::numeric_limits<int>::max()` used by the code as the
"unreachable" distance. -/
def intMax : Int := 2147483647

/-! ## ShortestDist (allreduce_robust.cc lines 353-373)

The C++ loop scans `dist_in` with index `i`, skipping `i == out_index` and
entries at `intMax`, and keeps the first entry whose `first + 1` strictly
improves the accumulator `res` (initially `intMax`), together with that
entry's size (initially `0`). -/

/-- Loop body of `ShortestDist`: recursion over the remaining entries with
the running index `i`, the excluded index `out`, and the accumulators
`res`/`size` exactly as in the C++ for-loop. -/
def shortestDistLoop : List (Int × Nat) → Nat → Nat → Int → Nat → Int × Nat
  | [], _, _, res, size => (res, size)
  | d :: rest, i, out, res, size =>
    if i = out then shortestDistLoop rest (i + 1) out res size
    else if d.1 = intMax then shortestDistLoop rest (i + 1) out res size
    else if d.1 + 1 < res then shortestDistLoop rest (i + 1) out (d.1 + 1) d.2
    else shortestDistLoop rest (i + 1) out res size

/-- `ShortestDist(node_value, dist_in, out_index)` from
allreduce_robust.cc lines 353-373: if the node has the payload return
`(1, own_size)`, otherwise run the scan with `res = intMax`, `size = 0`. -/
def ShortestDist (node_value : Bool × Nat) (dist_in : List (Int × Nat))
    (out_index : Nat) : Int × Nat :=
  if node_value.1 then (1, node_value.2)
  else shortestDistLoop dist_in 0 out_index intMax 0

/-! ## DataRequest (allreduce_robust.cc lines 384-400) -/

/-- Inner scan of `DataRequest`: return `1` at the first inbound edge
(other than `out`) whose request byte is nonzero, `0` if none is found;
mirrors the C++ for-loop with early `return 1`. -/
def dataRequestScan : List Int → Nat → Nat → Int
  | [], _, _ => 0
  | r :: rest, i, out =>
    if i = out then dataRequestScan rest (i + 1) out
    else if r ≠ 0 then 1
    else dataRequestScan rest (i + 1) out

/-- `DataRequest(node_value, req_in, out_index)` from
allreduce_robust.cc lines 384-400.  `node_value = (request_data, best_link)`
with `best_link : Int` (it can be `-1`); `out_index` is a `size_t` cast to
`int` for the comparison with `best_link`. -/
def DataRequest (node_value : Bool × Int) (req_in : List Int)
    (out_index : Nat) : Int :=
  if (out_index : Int) = node_value.2 then
    if node_value.1 then 1
    else dataRequestScan req_in 0 out_index
  else 0

/-! ## TryDecideRouting (allreduce_robust.cc lines 415-460) -/

/-- Recovery role of a node, from allreduce_robust.h as described by the
specification (§3): the node wants the payload, has it, or merely forwards. -/
inductive RecoverType where
  | kHaveData
  | kRequestData
  | kPassData
deriving DecidableEq, Repr

/-- First half of `TryDecideRouting` (lines 420-441): scan the incoming
distances, check that every reachable neighbour reports the same size, pick
the first strictly-closer neighbour as `best_link`, and overwrite the size.
The accumulators are `best` (the C++ `best_link`, starting at `-2`),
`bestDist` (the value `dist_in[best_link].first` the code compares
against), and `size` (the C++ `*p_size`).  `none` models a failed
`utils::Check`. -/
def decideLinkLoop : List (Int × Nat) → Nat → Int → Int → Nat → Option (Int × Nat)
  | [], _, best, _, size => if best = -2 then none else some (best, size)
  | d :: rest, i, best, bestDist, size =>
    if d.1 ≠ intMax then
      if best = -2 ∨ size = d.2 then
        if best = -2 ∨ d.1 < bestDist then decideLinkLoop rest (i + 1) (i : Int) d.1 d.2
        else decideLinkLoop rest (i + 1) best bestDist size
      else none
    else decideLinkLoop rest (i + 1) best bestDist size

/-- The routing decision of `TryDecideRouting` before the `DataRequest`
pass: for `kHaveData` the node keeps its size and `best_link = -1`;
otherwise `best_link` and the size are taken from the distance scan
(lines 426-441).  Returns `(best_link, size)`, or `none` when a
`utils::Check` fails. -/
def decideBestLink (role : RecoverType) (size0 : Nat)
    (dist_in : List (Int × Nat)) : Option (Int × Nat) :=
  if role = RecoverType.kHaveData then some (-1, size0)
  else decideLinkLoop dist_in 0 (-2) 0 size0

/-- The assertion block of `TryDecideRouting` (lines 450-456), as a Boolean
over the two request vectors and `best_link`: for every index `i` with
`req_out[i] ≠ 0` the code asserts `req_in[i] == 0` and `i == best_link`.
Returns `false` iff some `utils::Assert` fires. -/
def routingAssertOk (req_in req_out : List Int) (best_link : Int) : Bool :=
  (List.range req_in.length).all fun i =>
    if req_out.getD i 0 ≠ 0 then
      req_in.getD i 0 = 0 ∧ (i : Int) = best_link
    else true

/-- Claim C3's reading of the assertion block, written from the claim's
words (for refutation only): `req_in[i] == 0` is required for every `i`
with `req_out[i] ≠ 0`, except that the index `recv_link` is permitted to
appear in both vectors. -/
def routingAssertClaimed (req_in req_out : List Int) (best_link : Int) : Bool :=
  (List.range req_in.length).all fun i =>
    if req_out.getD i 0 ≠ 0 then
      req_in.getD i 0 = 0 ∨ (i : Int) = best_link
    else true

/-! ## ActionSummary and the RecoverExec decision tree
(allreduce_robust.cc lines 641-709) -/

/-- Modelled from the spec: `ActionSummary::kMaxSeq`, the sequence number
used by the special (flagged) operations; its exact value is an
implementation constant from the header, any value larger than every real
sequence counter works.  The spec (§3) only requires that after reduction
`seqno = kMaxSeq` iff all ranks supplied `kMaxSeq`. -/
def kMaxSeq : Nat := 67108864

/-- Modelled from the spec: the `ActionSummary` record of §3 — three flag
bits (`load_check`, `check_point`, `check_ack`), the reduced minimum
sequence number, and the derived `diff_seq` bit that records whether the
ranks' sequence numbers differed.  The header holding the bit-packed C++
struct is not part of the provided sources. -/
structure ActionSummary where
  load_check : Bool
  check_point : Bool
  check_ack : Bool
  min_seqno : Nat
  diff_seq : Bool
deriving DecidableEq, Repr

/-- The data-moving call performed by one iteration of `RecoverExec`'s
loop: none, `TryGetResult(buf, size, seqno, requester)`, or
`TryLoadCheckPoint(requester)`. -/
inductive SideCall where
  | noTransfer
  | getResult (seqno : Nat) (requester : Bool)
  | loadCheckpoint (requester : Bool)
deriving DecidableEq, Repr

/-- What one iteration of `RecoverExec`'s loop decides: return `true`,
return `false`, or go back and reduce a new action summary. -/
inductive StepRes where
  | retTrue
  | retFalse
  | contLoop
deriving DecidableEq, Repr

/-- One iteration of the `RecoverExec` loop (lines 652-705), after the
action summary has been reduced to `act`.  `req` is the local request built
from `(flag, seqno)`; `tryOk` is the outcome of
`CheckAndRecover(TryGetResult(...))` or
`CheckAndRecover(TryLoadCheckPoint(...))` when that call happens.  `none`
models a failed `utils::Assert`. -/
def recoverExecStep (req act : ActionSummary) (tryOk : Bool) :
    Option (SideCall × StepRes) :=
  if act.check_ack then
    if act.check_point then
      if act.diff_seq then none
      else if req.check_point then some (SideCall.noTransfer, StepRes.retTrue)
      else some (SideCall.noTransfer, StepRes.contLoop)
    else if act.load_check then
      if tryOk then
        if req.load_check then some (SideCall.loadCheckpoint req.load_check, StepRes.retTrue)
        else some (SideCall.loadCheckpoint req.load_check, StepRes.contLoop)
      else some (SideCall.loadCheckpoint req.load_check, StepRes.contLoop)
    else
      if req.check_ack then some (SideCall.noTransfer, StepRes.retTrue)
      else some (SideCall.noTransfer, StepRes.contLoop)
  else
    if act.check_point then
      if act.diff_seq then
        if act.min_seqno = kMaxSeq then none
        else
          let requester := req.min_seqno == act.min_seqno
          if tryOk then
            if requester then some (SideCall.getResult act.min_seqno requester, StepRes.retTrue)
            else some (SideCall.getResult act.min_seqno requester, StepRes.contLoop)
          else some (SideCall.getResult act.min_seqno requester, StepRes.contLoop)
      else if req.check_point then some (SideCall.noTransfer, StepRes.retTrue)
      else some (SideCall.noTransfer, StepRes.contLoop)
    else
      if act.load_check then
        if ¬act.diff_seq then some (SideCall.noTransfer, StepRes.retFalse)
        else if tryOk then
          if req.load_check then some (SideCall.loadCheckpoint req.load_check, StepRes.retTrue)
          else some (SideCall.loadCheckpoint req.load_check, StepRes.contLoop)
        else some (SideCall.loadCheckpoint req.load_check, StepRes.contLoop)
      else
        if act.min_seqno = kMaxSeq then none
        else if act.diff_seq then
          let requester := req.min_seqno == act.min_seqno
          if tryOk then
            if requester then some (SideCall.getResult act.min_seqno requester, StepRes.retTrue)
            else some (SideCall.getResult act.min_seqno requester, StepRes.contLoop)
          else some (SideCall.getResult act.min_seqno requester, StepRes.contLoop)
        else some (SideCall.noTransfer, StepRes.retFalse)

/-! ## Result-buffer retention in the collective wrappers
(allreduce_robust.cc lines 56-109) -/

/-- Modelled from the spec: `ResultBuffer::LastSeqNo()` (§4.5) — the
sequence number of the most recent entry, `-1` when the buffer is empty.
The buffer is modelled as the list of stored sequence numbers, oldest
first.  The `ResultBuffer` class lives in a header that is not part of the
provided sources. -/
def lastSeqNo (resbuf : List Nat) : Int :=
  match resbuf.getLast? with
  | none => -1
  | some s => (s : Int)

/-- The drop check shared by `Allreduce` (lines 62-65) and `Broadcast`
(lines 91-94): drop the most recent entry iff the buffer is nonempty and
`LastSeqNo() % R != rank % R`. -/
def dropCheck (resbuf : List Nat) (round rank : Nat) : List Nat :=
  if lastSeqNo resbuf ≠ -1 ∧
      ¬(lastSeqNo resbuf % (round : Int) = (rank : Int) % (round : Int)) then
    resbuf.dropLast
  else resbuf

/-- One successful collective at sequence number `s`: the wrapper runs the
drop check and then commits the fresh result with `PushTemp(s, ...)`
(lines 62-79 and 91-107). -/
def collectiveStep (resbuf : List Nat) (round rank s : Nat) : List Nat :=
  dropCheck resbuf round rank ++ [s]

/-- The buffer a worker holds after collectives `0, 1, ..., n-1` have all
succeeded, starting from an empty buffer (fresh start or just after a
checkpoint). -/
def bufferAfter (round rank : Nat) : Nat → List Nat
  | 0 => []
  | n + 1 => collectiveStep (bufferAfter round rank n) round rank n

/-! ## LoadCheckPoint (allreduce_robust.cc lines 132-154) -/

/-- Modelled from the spec: the engine state touched by `LoadCheckPoint` —
the result buffer, the sequence counter, and the version number stored at
the head of the global checkpoint blob (§3, §4.5).  The blob's payload
bytes are irrelevant to claim C7 and are not modelled. -/
structure EngineState where
  resbuf : List Nat
  seq_counter : Nat
  storedVersion : Nat
deriving Repr

/-- Outcome of `LoadCheckPoint`: the returned version, the updated engine
state, and whether `global_model->Load` ran (i.e. whether the caller's
model object was modified). -/
structure LoadOutcome where
  ret : Nat
  state : EngineState
  modelLoaded : Bool
deriving Repr

/-- `LoadCheckPoint(global_model, local_model)` (lines 132-154).
`localModelNonNull` is whether the caller passed a non-null `local_model`
(rejected by `utils::Check`, modelled as `none`); `recovered` is the
outcome of `RecoverExec(NULL, 0, kLoadCheck, kMaxSeq)`.  In the recovered
branch the version number is read from the checkpoint blob; a zero version
returns 0 without touching the model; the non-recovered branch is a fresh
start returning `false` (integer 0).  Both branches clear the result
buffer and reset `seq_counter`. -/
def LoadCheckPoint (localModelNonNull : Bool) (recovered : Bool)
    (st : EngineState) : Option LoadOutcome :=
  if localModelNonNull then none
  else if recovered then
    let v := st.storedVersion
    if v = 0 then some ⟨0, { st with resbuf := [], seq_counter := 0 }, false⟩
    else some ⟨v, { st with resbuf := [], seq_counter := 0 }, true⟩
  else some ⟨0, { st with resbuf := [], seq_counter := 0 }, false⟩

/-! ## TryResetLinks (allreduce_robust.cc lines 200-312) -/

/-- Return type of the internal operations (allreduce_robust.h via the
spec §7). -/
inductive ReturnType where
  | kSuccess
  | kSockError
  | kGetExcept
deriving DecidableEq, Repr

/-- Modelled from the spec: what can happen to one link's socket during the
reset handshake.  `initBad` — the socket was already bad (or went bad
while sending the reset marks); `drainZero` — a zero-length `Recv` during
the drain loop (line 252 closes the socket); `syncZero` — a zero-length
blocking read of the reset mark (line 274 closes it); `ackZero` — a
zero-length read of the ack (line 298 closes it).  The socket layer is an
external collaborator, not part of the provided sources. -/
structure LinkSock where
  initBad : Bool
  drainZero : Bool
  syncZero : Bool
  ackZero : Bool
deriving DecidableEq, Repr

/-- Whether a link's socket is bad after the drain phase: already bad, or
closed by the zero-length read at line 252. -/
def badAfterDrain (l : LinkSock) : Bool := l.initBad || l.drainZero

/-- Whether the socket is bad after the blocking mark-read phase
(lines 268-291); the phase is skipped for sockets already bad. -/
def badAfterSync (l : LinkSock) : Bool := badAfterDrain l || l.syncZero

/-- Whether the socket is bad after the ack phase (lines 293-307). -/
def badAfterAck (l : LinkSock) : Bool := badAfterSync l || l.ackZero

/-- The final scan of `TryResetLinks` (lines 308-311): report `kSockError`
iff some link's socket ended up bad, `kSuccess` otherwise. -/
def TryResetLinks (links : List LinkSock) : ReturnType :=
  if links.any badAfterAck then ReturnType.kSockError else ReturnType.kSuccess

/-! ## The Allreduce retry loop (allreduce_robust.cc lines 56-81) -/

/-- Abstract byte buffer for the retry-loop model. -/
abbrev Buf := List Nat

/-- Outcome of one iteration of `Allreduce`'s retry loop, viewed through
the contracts of the collaborators: `TryAllreduce` either succeeds (the
scratch buffer now holds the reduced value) or fails, and after a failure
`RecoverExec` either completes the operation from peers (returning `true`
with the result written into the caller's buffer) or reports that the
operation still has to be executed (returning `false`, in which case the
plain-operation protocol has written nothing into the caller's buffer:
non-requesters ignore it and a requester that succeeded would have
returned `true`). -/
inductive Attempt where
  | success
  | failRecovered (r : Buf)
  | failRetry
deriving DecidableEq, Repr

/-- The retry loop of `Allreduce` (lines 66-78), entered with
`recovered = false`.  `f` is the value of the completed collective as a
function of this rank's input (fixed across retries, since every rank
re-submits the same operands).  Each iteration copies the caller's buffer
`buf` into the scratch area `temp` and hands `temp` to `TryAllreduce`;
only on success is `buf` overwritten (line 73).  Returns the list of
buffers handed to `TryAllreduce`, the final caller buffer, and whether the
loop exited within the given attempts. -/
def allreduceLoop (f : Buf → Buf) (buf : Buf) :
    List Attempt → List Buf × Buf × Bool
  | [] => ([], buf, false)
  | Attempt.success :: _ => ([buf], f buf, true)
  | Attempt.failRecovered r :: _ => ([buf], r, true)
  | Attempt.failRetry :: rest =>
    let out := allreduceLoop f buf rest
    (buf :: out.1, out.2.1, out.2.2)

/-! ## TryGetResult for non-requesters (allreduce_robust.cc lines 609-623) -/

/-- The head of `TryGetResult` (lines 610-616): a requester keeps its
arguments and takes role `kRequestData`; a non-requester replaces its
buffer by `resbuf.Query(seqno)` — role `kHaveData` with the cached payload
and size when the query hits, role `kPassData` with a null buffer (and the
caller's size value left in place, as `Query` does not write `*p_size` on
a miss) otherwise.  `query` is the result of `resbuf.Query(seqno, &size)`
as described in the spec §4.5. -/
def tryGetResultHead (bufArg : Buf) (sizeArg : Nat)
    (query : Option (Buf × Nat)) (requester : Bool) :
    RecoverType × Option Buf × Nat :=
  if requester then (RecoverType.kRequestData, some bufArg, sizeArg)
  else
    match query with
    | some (p, sz) => (RecoverType.kHaveData, some p, sz)
    | none => (RecoverType.kPassData, none, sizeArg)

/-- `TryGetResult` up to and including the size/link decision of
`TryDecideRouting`: the role and payload chosen by the head, and the
`(best_link, size)` pair produced by the distance scan for the given
incoming distance vector. -/
def tryGetResultRouting (bufArg : Buf) (sizeArg : Nat)
    (query : Option (Buf × Nat)) (requester : Bool)
    (dist_in : List (Int × Nat)) :
    Option (RecoverType × Option Buf × Int × Nat) :=
  match tryGetResultHead bufArg sizeArg query requester with
  | (role, payload, sz) =>
    (decideBestLink role sz dist_in).map fun bl => (role, payload, bl.1, bl.2)

/-! ## TryRecoverData event loop (allreduce_robust.cc lines 476-570)

The loop is nondeterministic I/O; we model it as a small-step transition
system on the per-link counters `(size_read, size_write)` (reset to zero
at lines 498-500 before the loop).  Each step is one socket operation of
the loop body; the amount of data a non-blocking call moves is an
arbitrary `δ` bounded exactly as the code bounds it. -/

/-- Static data of one `TryRecoverData` call: the node's role, the payload
size, the inbound link, the per-link request bitmap, and the ring-buffer
capacity of the inbound link (used only by `kPassData`). -/
structure RDConfig where
  role : RecoverType
  size : Nat
  recv_link : Nat
  req_in : List Bool
  buffer_size : Nat

/-- Per-link counters, indexed by link number: `(size_read, size_write)`. -/
abbrev RDState := Nat → Nat × Nat

/-- Add `δ` to link `i`'s `size_read`. -/
def updRead (s : RDState) (i : Nat) (δ : Nat) : RDState :=
  fun j => if j = i then ((s i).1 + δ, (s i).2) else s j

/-- Add `δ` to link `i`'s `size_write`. -/
def updWrite (s : RDState) (i : Nat) (δ : Nat) : RDState :=
  fun j => if j = i then ((s j).1, (s i).2 + δ) else s j

/-- One socket operation of the `TryRecoverData` event loop.

* `readToArray` — `links[pid].ReadToArray(sendrecvbuf_, size)` performed
  by a `kRequestData` node (line 527): the helper reads at most
  `size - size_read` bytes, so the new `size_read` stays `≤ size`.
* `writeFromArrayReq` — `links[i].WriteFromArray(sendrecvbuf_,
  links[pid].size_read)` performed by a `kRequestData` node on a
  requesting link (line 532): the helper writes at most
  `size_read(pid) - size_write(i)` bytes.
* `writeFromArrayHave` — `links[i].WriteFromArray(sendrecvbuf_, size)`
  performed by a `kHaveData` node (line 539).
* `readToRing` — `links[pid].ReadToRingBuffer(min_write)` performed by a
  `kPassData` node (line 552); the incoming stream carries the payload of
  length `size` (the sender's `size_write` never exceeds `size`), so the
  bytes received never push `size_read` past `size`; the ring cap bounds
  one read by the free space past `min_write`.
* `sendPass` — the raw `Send` from the ring buffer (lines 556-561):
  `nwrite = min(buffer_size - start, size_read(pid) - size_write(i))`, so
  the bytes written are bounded by both. -/
inductive RDStep (c : RDConfig) : RDState → RDState → Prop where
  | readToArray (s : RDState) (δ : Nat)
      (hrole : c.role = RecoverType.kRequestData)
      (hδ : (s c.recv_link).1 + δ ≤ c.size) :
      RDStep c s (updRead s c.recv_link δ)
  | writeFromArrayReq (s : RDState) (i δ : Nat)
      (hrole : c.role = RecoverType.kRequestData)
      (hreq : c.req_in.getD i false = true)
      (hδ : (s i).2 + δ ≤ (s c.recv_link).1) :
      RDStep c s (updWrite s i δ)
  | writeFromArrayHave (s : RDState) (i δ : Nat)
      (hrole : c.role = RecoverType.kHaveData)
      (hreq : c.req_in.getD i false = true)
      (hδ : (s i).2 + δ ≤ c.size) :
      RDStep c s (updWrite s i δ)
  | readToRing (s : RDState) (δ mw : Nat)
      (hrole : c.role = RecoverType.kPassData)
      (hmw : mw ≤ (s c.recv_link).1)
      (hring : (s c.recv_link).1 + δ ≤ mw + c.buffer_size)
      (hδ : (s c.recv_link).1 + δ ≤ c.size) :
      RDStep c s (updRead s c.recv_link δ)
  | sendPass (s : RDState) (i δ : Nat)
      (hrole : c.role = RecoverType.kPassData)
      (hreq : c.req_in.getD i false = true)
      (hδ : (s i).2 + δ ≤ (s c.recv_link).1) :
      RDStep c s (updWrite s i δ)

/-- Reachability in zero or more socket operations. -/
def RDSteps (c : RDConfig) : RDState → RDState → Prop :=
  Relation.ReflTransGen (RDStep c)

/-- The state after `ResetSize` on every link (lines 498-500). -/
def rdInit : RDState := fun _ => (0, 0)

/-- The invariant of claim C6: every link has `size_read ≤ size`, and on
every requesting link the bytes written are bounded by `size` for a
`kHaveData` node and by the bytes received on the inbound link for
`kRequestData` and `kPassData` nodes. -/
def RDInv (c : RDConfig) (s : RDState) : Prop :=
  (∀ i, (s i).1 ≤ c.size) ∧
  ∀ i, c.req_in.getD i false = true →
    (c.role = RecoverType.kHaveData → (s i).2 ≤ c.size) ∧
    (c.role ≠ RecoverType.kHaveData → (s i).2 ≤ (s c.recv_link).1)

/-! ## Theorems -/

/-- Helper: the index of every element of `enumFrom i l` is at least `i`. -/
theorem enumFrom_fst_le {α : Type} :
    ∀ (l : List α) (i : Nat) (p : Nat × α), p ∈ l.enumFrom i → i ≤ p.1 := by
  intro l
  induction l with
  | nil => intro i p hp; simp [List.enumFrom] at hp
  | cons a rest ih =>
    intro i p hp
    rw [List.enumFrom_cons] at hp
    rcases List.mem_cons.mp hp with h | h
    · subst h; exact Nat.le_refl i
    · exact Nat.le_trans (Nat.le_succ i) (ih (i + 1) p h)

/-- C2: in the `Allreduce`/`Broadcast` wrappers the drop check leaves an
empty buffer alone; on a nonempty buffer the previous last entry (seqno
`s`) is dropped iff `s % R ≠ rank % R` and retained iff `s % R = rank % R`;
consequently after collectives `0 .. n` have succeeded the buffer holds
exactly the past sequence numbers congruent to `rank` modulo `R`, plus the
most recent result `n`. -/
theorem resultBuffer_retention (round rank : Nat) :
    dropCheck [] round rank = [] ∧
    (∀ (resbuf : List Nat) (s : Nat),
      dropCheck (resbuf ++ [s]) round rank =
        if s % round = rank % round then resbuf ++ [s] else resbuf) ∧
    (∀ n : Nat, bufferAfter round rank (n + 1) =
      ((List.range n).filter fun t => t % round == rank % round) ++ [n]) := by
  have hdrop : ∀ (resbuf : List Nat) (s : Nat),
      dropCheck (resbuf ++ [s]) round rank =
        if s % round = rank % round then resbuf ++ [s] else resbuf := by
    intro resbuf s
    have hlast : lastSeqNo (resbuf ++ [s]) = (s : Int) := by
      simp [lastSeqNo]
    have hmod : (lastSeqNo (resbuf ++ [s]) % (round : Int) =
        (rank : Int) % (round : Int)) ↔ s % round = rank % round := by
      rw [hlast]
      constructor
      · intro h; exact_mod_cast h
      · intro h; exact_mod_cast h
    by_cases hc : s % round = rank % round
    · rw [if_pos hc]
      unfold dropCheck
      rw [if_neg]
      intro hcon
      exact hcon.2 (hmod.mpr hc)
    · rw [if_neg hc]
      unfold dropCheck
      rw [if_pos]
      · exact List.dropLast_concat
      · refine ⟨by rw [hlast]; omega, ?_⟩
        intro hcon
        exact hc (hmod.mp hcon)
  refine ⟨by simp [dropCheck, lastSeqNo], hdrop, ?_⟩
  intro n
  induction n with
  | zero =>
    simp [bufferAfter, collectiveStep, dropCheck, lastSeqNo]
  | succ n ih =>
    show collectiveStep (bufferAfter round rank (n + 1)) round rank (n + 1) = _
    rw [ih]
    unfold collectiveStep
    rw [hdrop]
    rw [List.range_succ, List.filter_append]
    by_cases hc : n % round = rank % round
    · rw [if_pos hc]
      simp [hc]
    · rw [if_neg hc]
      simp [hc]

/-- C3 counterexample: with `req_in = [1]`, `req_out = [1]` and
`recv_link = 0`, the claim's reading of the assertion block (a link may
carry traffic in both directions when it is the chosen inbound link)
accepts the vectors, but the code's assertion `req_in[i] == 0` fires even
at `i == recv_link`, so `TryDecideRouting` does not permit the exception. -/
theorem routingAssert_counterexample :
    routingAssertClaimed [1] [1] 0 = true ∧ routingAssertOk [1] [1] 0 = false := by
  constructor <;> decide

/-- C3 (amended): after the `DataRequest` pass, the assertions of
`TryDecideRouting` pass iff for every link index `i` with `req_out[i] ≠ 0`
both `req_in[i] == 0` and `i == recv_link` hold; there is no permitted
exception — a link may never appear in both `req_in` and `req_out`, not
even the chosen inbound link of a `kRequestData` node. -/
theorem routingAssert_spec (req_in req_out : List Int) (best_link : Int) :
    routingAssertOk req_in req_out best_link = true ↔
      ∀ i < req_in.length, req_out.getD i 0 ≠ 0 →
        req_in.getD i 0 = 0 ∧ (i : Int) = best_link := by
  unfold routingAssertOk
  rw [List.all_eq_true]
  constructor
  · intro h i hi hout
    have := h i (List.mem_range.mpr hi)
    rw [if_pos hout] at this
    exact of_decide_eq_true this
  · intro h i hi
    by_cases hout : req_out.getD i 0 ≠ 0
    · rw [if_pos hout]
      exact decide_eq_true (h i (List.mem_range.mp hi) hout)
    · rw [if_neg hout]

/-- C5: `DataRequest` emits only 0 or 1, and emits 1 exactly when the out
edge is the node's `best_link` and either the node itself requests data or
some inbound edge other than `out_index` carries a nonzero request. -/
theorem dataRequest_spec (node_value : Bool × Int) (req_in : List Int)
    (out_index : Nat) :
    (DataRequest node_value req_in out_index = 0 ∨
      DataRequest node_value req_in out_index = 1) ∧
    (DataRequest node_value req_in out_index = 1 ↔
      ((out_index : Int) = node_value.2 ∧
        (node_value.1 = true ∨
          ∃ p ∈ req_in.enum, p.1 ≠ out_index ∧ p.2 ≠ 0))) := by
  have hscan : ∀ (l : List Int) (i out : Nat),
      (dataRequestScan l i out = 0 ∨ dataRequestScan l i out = 1) ∧
      (dataRequestScan l i out = 1 ↔
        ∃ p ∈ l.enumFrom i, p.1 ≠ out ∧ p.2 ≠ 0) := by
    intro l
    induction l with
    | nil => intro i out; simp [dataRequestScan, List.enumFrom]
    | cons r rest ih =>
      intro i out
      by_cases hio : i = out
      · have hstep : dataRequestScan (r :: rest) i out =
            dataRequestScan rest (i + 1) out := by
          simp only [dataRequestScan]
          rw [if_pos hio]
        rw [hstep, List.enumFrom_cons]
        refine ⟨(ih (i + 1) out).1, ?_⟩
        rw [(ih (i + 1) out).2]
        constructor
        · rintro ⟨p, hp, hcond⟩
          exact ⟨p, List.mem_cons_of_mem _ hp, hcond⟩
        · rintro ⟨p, hp, hcond⟩
          rcases List.mem_cons.mp hp with h | h
          · exfalso; subst h; exact hcond.1 hio
          · exact ⟨p, h, hcond⟩
      · by_cases hr : r ≠ 0
        · have hstep : dataRequestScan (r :: rest) i out = 1 := by
            simp only [dataRequestScan]
            rw [if_neg hio, if_pos hr]
          rw [hstep, List.enumFrom_cons]
          refine ⟨Or.inr rfl, ?_⟩
          constructor
          · intro _
            exact ⟨(i, r), List.mem_cons_self _ _, hio, hr⟩
          · intro _; rfl
        · have hstep : dataRequestScan (r :: rest) i out =
              dataRequestScan rest (i + 1) out := by
            simp only [dataRequestScan]
            rw [if_neg hio, if_neg hr]
          rw [hstep, List.enumFrom_cons]
          refine ⟨(ih (i + 1) out).1, ?_⟩
          rw [(ih (i + 1) out).2]
          constructor
          · rintro ⟨p, hp, hcond⟩
            exact ⟨p, List.mem_cons_of_mem _ hp, hcond⟩
          · rintro ⟨p, hp, hcond⟩
            rcases List.mem_cons.mp hp with h | h
            · exfalso; subst h; exact hr hcond.2
            · exact ⟨p, h, hcond⟩
  unfold DataRequest
  by_cases hbl : (out_index : Int) = node_value.2
  · rw [if_pos hbl]
    by_cases hreq : node_value.1 = true
    · rw [if_pos (by rw [hreq])]
      refine ⟨Or.inr rfl, ?_⟩
      constructor
      · intro _; exact ⟨hbl, Or.inl hreq⟩
      · intro _; rfl
    · rw [if_neg (by simpa using hreq)]
      refine ⟨(hscan req_in 0 out_index).1, ?_⟩
      rw [(hscan req_in 0 out_index).2]
      constructor
      · intro h
        exact ⟨hbl, Or.inr (by simpa [List.enum] using h)⟩
      · rintro ⟨-, h | h⟩
        · exact absurd h hreq
        · simpa [List.enum] using h
  · rw [if_neg hbl]
    refine ⟨Or.inl rfl, ?_⟩
    constructor
    · intro h; exact absurd h (by decide)
    · rintro ⟨h, -⟩; exact absurd h hbl

/-- C7: `LoadCheckPoint` rejects a non-null `local_model`; with a null
`local_model` it always clears the result buffer and resets `seq_counter`
to 0, and when no checkpoint exists (stored version number 0) it returns 0
without loading into the caller's model, in both the recovered and the
fresh-start branch. -/
theorem loadCheckPoint_spec (recovered : Bool) (st : EngineState) :
    LoadCheckPoint true recovered st = none ∧
    (∃ out : LoadOutcome, LoadCheckPoint false recovered st = some out ∧
      out.state.resbuf = [] ∧ out.state.seq_counter = 0) ∧
    (st.storedVersion = 0 →
      LoadCheckPoint false recovered st =
        some ⟨0, { st with resbuf := [], seq_counter := 0 }, false⟩) := by
  refine ⟨rfl, ?_, ?_⟩
  · unfold LoadCheckPoint
    cases recovered with
    | false => exact ⟨_, rfl, rfl, rfl⟩
    | true =>
      by_cases hv : st.storedVersion = 0
      · exact ⟨_, by rw [if_neg (by simp), if_pos rfl, if_pos hv], rfl, rfl⟩
      · exact ⟨_, by rw [if_neg (by simp), if_pos rfl, if_neg hv], rfl, rfl⟩
  · intro hv
    unfold LoadCheckPoint
    cases recovered with
    | false => rfl
    | true => rw [if_neg (by simp), if_pos rfl, if_pos hv]

/-- C7 witness: `LoadCheckPoint` at a concrete state with stored version 0. -/
theorem loadCheckPoint_spec_witness :
    LoadCheckPoint true false ⟨[3, 4], 2, 0⟩ = none ∧
    (∃ out : LoadOutcome, LoadCheckPoint false false ⟨[3, 4], 2, 0⟩ = some out ∧
      out.state.resbuf = [] ∧ out.state.seq_counter = 0) ∧
    ((⟨[3, 4], 2, 0⟩ : EngineState).storedVersion = 0 →
      LoadCheckPoint false false ⟨[3, 4], 2, 0⟩ =
        some ⟨0, { resbuf := [], seq_counter := 0, storedVersion := 0 }, false⟩) :=
  loadCheckPoint_spec false ⟨[3, 4], 2, 0⟩

/-- C8: `TryResetLinks` returns `kSuccess` iff no link's socket is bad at
the end of the handshake, and any socket closed by a zero-length read
during the drain yields `kSockError`. -/
theorem tryResetLinks_spec (links : List LinkSock) :
    (TryResetLinks links = ReturnType.kSuccess ↔
      ∀ l ∈ links, badAfterAck l = false) ∧
    (∀ l ∈ links, l.drainZero = true →
      TryResetLinks links = ReturnType.kSockError) := by
  constructor
  · unfold TryResetLinks
    by_cases h : links.any badAfterAck
    · rw [if_pos h]
      simp only [List.any_eq_true] at h
      obtain ⟨l, hl, hbad⟩ := h
      constructor
      · intro hcon; exact absurd hcon (by decide)
      · intro hall; exact absurd (hall l hl) (by simp [hbad])
    · rw [if_neg h]
      simp only [List.any_eq_true, not_exists] at h
      constructor
      · intro _ l hl
        by_contra hbad
        exact h l ⟨hl, by simpa using hbad⟩
      · intro _; rfl
  · intro l hl hdrain
    unfold TryResetLinks
    rw [if_pos]
    exact List.any_eq_true.mpr ⟨l, hl, by simp [badAfterAck, badAfterSync, badAfterDrain, hdrain]⟩

/-- C8 witness: a two-link configuration where the second link's socket was
closed by a zero-length read during the drain. -/
theorem tryResetLinks_spec_witness :
    (TryResetLinks [⟨false, false, false, false⟩, ⟨false, true, false, false⟩] =
        ReturnType.kSuccess ↔
      ∀ l ∈ ([⟨false, false, false, false⟩, ⟨false, true, false, false⟩] : List LinkSock),
        badAfterAck l = false) ∧
    (∀ l ∈ ([⟨false, false, false, false⟩, ⟨false, true, false, false⟩] : List LinkSock),
      l.drainZero = true →
      TryResetLinks [⟨false, false, false, false⟩, ⟨false, true, false, false⟩] =
        ReturnType.kSockError) :=
  tryResetLinks_spec _

/-- C9: entered after a failed initial `RecoverExec`, every iteration of
`Allreduce`'s retry loop hands `TryAllreduce` a scratch copy holding
exactly the caller's original operands; after any number of failed
attempts the caller's buffer still holds the original operands, and it is
overwritten (with the reduction of those same operands) only once an
attempt succeeds. -/
theorem allreduce_retry_spec (f : Buf → Buf) (buf : Buf) (n : Nat) :
    allreduceLoop f buf (List.replicate n Attempt.failRetry) =
      (List.replicate n buf, buf, false) ∧
    allreduceLoop f buf (List.replicate n Attempt.failRetry ++ [Attempt.success]) =
      (List.replicate (n + 1) buf, f buf, true) := by
  induction n with
  | zero => simp [allreduceLoop]
  | succ n ih =>
    rw [List.replicate_succ]
    constructor
    · show (buf :: (allreduceLoop f buf (List.replicate n Attempt.failRetry)).1, _, _) = _
      rw [ih.1]
      simp [List.replicate_succ]
    · rw [List.cons_append]
      show (buf :: (allreduceLoop f buf
          (List.replicate n Attempt.failRetry ++ [Attempt.success])).1, _, _) = _
      rw [ih.2]
      simp [List.replicate_succ]

/-- C1: for a plain `RecoverExec(buf, size, 0, seqno)` call whose reduced
action summary carries no flag bits: when `diff_seq` is false the
iteration returns `false` without any data transfer; when `diff_seq` is
true every rank calls `TryGetResult(buf, size, act.min_seqno, requester)`
with `requester = (req.min_seqno == act.min_seqno)`, a requester whose
transfer succeeded returns `true`, and non-requesters (as well as failed
transfers) loop back to reduce a new action summary. -/
theorem recoverExec_plain (req act : ActionSummary) (tryOk : Bool)
    (hreq : req.load_check = false ∧ req.check_point = false ∧ req.check_ack = false)
    (hact : act.load_check = false ∧ act.check_point = false ∧ act.check_ack = false)
    (hseq : act.min_seqno ≠ kMaxSeq) :
    (act.diff_seq = false →
      recoverExecStep req act tryOk =
        some (SideCall.noTransfer, StepRes.retFalse)) ∧
    (act.diff_seq = true →
      recoverExecStep req act tryOk =
        some (SideCall.getResult act.min_seqno (req.min_seqno == act.min_seqno),
          if tryOk && (req.min_seqno == act.min_seqno) then StepRes.retTrue
          else StepRes.contLoop)) := by
  obtain ⟨-, -, -⟩ := hreq
  obtain ⟨ha1, ha2, ha3⟩ := hact
  unfold recoverExecStep
  rw [ha1, ha2, ha3]
  simp only [if_false, Bool.false_eq_true, if_neg (fun h => h : ¬False)]
  constructor
  · intro hd
    rw [if_neg hseq, hd]
    simp
  · intro hd
    rw [if_neg hseq, hd]
    simp only [if_true]
    cases htry : tryOk with
    | true =>
      cases hb : (req.min_seqno == act.min_seqno) with
      | true => simp
      | false => simp
    | false =>
      cases hb : (req.min_seqno == act.min_seqno) with
      | true => simp
      | false => simp

/-- C1 witness: a plain request at seqno 3 reduced against a lagging peer
at seqno 1 (`diff_seq` true); this rank is not the requester and loops. -/
theorem recoverExec_plain_witness :
    ((⟨false, false, false, 1, true⟩ : ActionSummary).diff_seq = false →
      recoverExecStep ⟨false, false, false, 3, false⟩ ⟨false, false, false, 1, true⟩ true =
        some (SideCall.noTransfer, StepRes.retFalse)) ∧
    ((⟨false, false, false, 1, true⟩ : ActionSummary).diff_seq = true →
      recoverExecStep ⟨false, false, false, 3, false⟩ ⟨false, false, false, 1, true⟩ true =
        some (SideCall.getResult (⟨false, false, false, 1, true⟩ : ActionSummary).min_seqno
            ((⟨false, false, false, 3, false⟩ : ActionSummary).min_seqno ==
              (⟨false, false, false, 1, true⟩ : ActionSummary).min_seqno),
          if true && ((⟨false, false, false, 3, false⟩ : ActionSummary).min_seqno ==
              (⟨false, false, false, 1, true⟩ : ActionSummary).min_seqno)
          then StepRes.retTrue else StepRes.contLoop)) :=
  recoverExec_plain ⟨false, false, false, 3, false⟩ ⟨false, false, false, 1, true⟩ true
    (by constructor <;> first | rfl | constructor <;> rfl)
    (by constructor <;> first | rfl | constructor <;> rfl)
    (by decide)

/-- Helper for C10: the distance scan of `TryDecideRouting` does not
depend on the incoming size accumulator (or the distance accumulator)
while `best_link` is still `-2`: the size-consistency check passes
vacuously and the first reachable neighbour overwrites both. -/
theorem decideLinkLoop_acc_irrel (l : List (Int × Nat)) :
    ∀ (i : Nat) (bd₁ bd₂ : Int) (s₁ s₂ : Nat),
      decideLinkLoop l i (-2) bd₁ s₁ = decideLinkLoop l i (-2) bd₂ s₂ := by
  induction l with
  | nil => intro i bd₁ bd₂ s₁ s₂; rfl
  | cons d rest ih =>
    intro i bd₁ bd₂ s₁ s₂
    by_cases hm : d.1 ≠ intMax
    · simp only [decideLinkLoop, if_pos hm]
      simp
    · simp only [decideLinkLoop, if_neg hm]
      exact ih (i + 1) bd₁ bd₂ s₁ s₂

/-- C10: a non-requester in `TryGetResult` takes its role and payload from
the result buffer: role `kHaveData` serving the cached payload and size
when `resbuf.Query(seqno)` hits, role `kPassData` with a null payload when
it misses; and through the routing decision the outcome is independent of
the caller-supplied `buf` and `size` arguments. -/
theorem tryGetResult_nonrequester (query : Option (Buf × Nat))
    (dist_in : List (Int × Nat)) :
    (∀ (bufArg : Buf) (sizeArg : Nat) (p : Buf) (sz : Nat),
      query = some (p, sz) →
        tryGetResultHead bufArg sizeArg query false =
          (RecoverType.kHaveData, some p, sz)) ∧
    (∀ (bufArg : Buf) (sizeArg : Nat),
      query = none →
        tryGetResultHead bufArg sizeArg query false =
          (RecoverType.kPassData, none, sizeArg)) ∧
    (∀ (bufArg₁ : Buf) (sizeArg₁ : Nat) (bufArg₂ : Buf) (sizeArg₂ : Nat),
      tryGetResultRouting bufArg₁ sizeArg₁ query false dist_in =
        tryGetResultRouting bufArg₂ sizeArg₂ query false dist_in) := by
  refine ⟨?_, ?_, ?_⟩
  · intro bufArg sizeArg p sz hq
    subst hq; rfl
  · intro bufArg sizeArg hq
    subst hq; rfl
  · intro bufArg₁ sizeArg₁ bufArg₂ sizeArg₂
    cases query with
    | some c => rfl
    | none =>
      show (decideBestLink RecoverType.kPassData sizeArg₁ dist_in).map _ =
        (decideBestLink RecoverType.kPassData sizeArg₂ dist_in).map _
      unfold decideBestLink
      rw [if_neg (by decide), if_neg (by decide)]
      rw [decideLinkLoop_acc_irrel dist_in 0 0 0 sizeArg₁ sizeArg₂]

/-- C10 witness: a concrete cache miss — the role is `kPassData`, the
payload null, and two different caller buffers and sizes give the same
routing outcome. -/
theorem tryGetResult_nonrequester_witness :
    (∀ (bufArg : Buf) (sizeArg : Nat) (p : Buf) (sz : Nat),
      (none : Option (Buf × Nat)) = some (p, sz) →
        tryGetResultHead bufArg sizeArg none false =
          (RecoverType.kHaveData, some p, sz)) ∧
    (∀ (bufArg : Buf) (sizeArg : Nat),
      (none : Option (Buf × Nat)) = none →
        tryGetResultHead bufArg sizeArg none false =
          (RecoverType.kPassData, none, sizeArg)) ∧
    (∀ (bufArg₁ : Buf) (sizeArg₁ : Nat) (bufArg₂ : Buf) (sizeArg₂ : Nat),
      tryGetResultRouting bufArg₁ sizeArg₁ none false [((3 : Int), 8), ((2 : Int), 8)] =
        tryGetResultRouting bufArg₂ sizeArg₂ none false [((3 : Int), 8), ((2 : Int), 8)]) :=
  tryGetResult_nonrequester none [((3 : Int), 8), ((2 : Int), 8)]

/-- Helper for C6: one socket operation of the `TryRecoverData` event loop
preserves the counter invariant. -/
theorem rdInv_preserved {c : RDConfig} {s s' : RDState}
    (hs : RDStep c s s') (hinv : RDInv c s) : RDInv c s' := by
  obtain ⟨hread, hwrite⟩ := hinv
  cases hs with
  | readToArray δ hrole hδ =>
    refine ⟨?_, ?_⟩
    · intro i
      by_cases h : i = c.recv_link
      · subst h; simpa [updRead] using hδ
      · simpa [updRead, h] using hread i
    · intro i hi
      refine ⟨?_, ?_⟩
      · intro hhave; rw [hrole] at hhave; exact absurd hhave (by decide)
      · intro _
        have h1 : (updRead s c.recv_link δ i).2 = (s i).2 := by
          by_cases h : i = c.recv_link <;> simp [updRead, h]
        have h2 : (s c.recv_link).1 ≤ (updRead s c.recv_link δ c.recv_link).1 := by
          simp [updRead]
        have h3 := (hwrite i hi).2 (by rw [hrole]; decide)
        rw [h1]
        exact Nat.le_trans h3 h2
  | writeFromArrayReq i δ hrole hreq hδ =>
    refine ⟨?_, ?_⟩
    · intro j
      have h1 : (updWrite s i δ j).1 = (s j).1 := by
        by_cases h : j = i <;> simp [updWrite, h]
      rw [h1]; exact hread j
    · intro j hj
      refine ⟨?_, ?_⟩
      · intro hhave; rw [hrole] at hhave; exact absurd hhave (by decide)
      · intro _
        have hrecv : (updWrite s i δ c.recv_link).1 = (s c.recv_link).1 := by
          by_cases h : c.recv_link = i <;> simp [updWrite, h]
        rw [hrecv]
        by_cases h : j = i
        · subst h; simpa [updWrite] using hδ
        · have := (hwrite j hj).2 (by rw [hrole]; decide)
          simpa [updWrite, h] using this
  | writeFromArrayHave i δ hrole hreq hδ =>
    refine ⟨?_, ?_⟩
    · intro j
      have h1 : (updWrite s i δ j).1 = (s j).1 := by
        by_cases h : j = i <;> simp [updWrite, h]
      rw [h1]; exact hread j
    · intro j hj
      refine ⟨?_, ?_⟩
      · intro _
        by_cases h : j = i
        · subst h; simpa [updWrite] using hδ
        · have := (hwrite j hj).1 hrole
          simpa [updWrite, h] using this
      · intro hnot; exact absurd hrole hnot
  | readToRing δ mw hrole hmw hring hδ =>
    refine ⟨?_, ?_⟩
    · intro i
      by_cases h : i = c.recv_link
      · subst h; simpa [updRead] using hδ
      · simpa [updRead, h] using hread i
    · intro i hi
      refine ⟨?_, ?_⟩
      · intro hhave; rw [hrole] at hhave; exact absurd hhave (by decide)
      · intro _
        have h1 : (updRead s c.recv_link δ i).2 = (s i).2 := by
          by_cases h : i = c.recv_link <;> simp [updRead, h]
        have h2 : (s c.recv_link).1 ≤ (updRead s c.recv_link δ c.recv_link).1 := by
          simp [updRead]
        have h3 := (hwrite i hi).2 (by rw [hrole]; decide)
        rw [h1]
        exact Nat.le_trans h3 h2
  | sendPass i δ hrole hreq hδ =>
    refine ⟨?_, ?_⟩
    · intro j
      have h1 : (updWrite s i δ j).1 = (s j).1 := by
        by_cases h : j = i <;> simp [updWrite, h]
      rw [h1]; exact hread j
    · intro j hj
      refine ⟨?_, ?_⟩
      · intro hhave; rw [hrole] at hhave; exact absurd hhave (by decide)
      · intro _
        have hrecv : (updWrite s i δ c.recv_link).1 = (s c.recv_link).1 := by
          by_cases h : c.recv_link = i <;> simp [updWrite, h]
        rw [hrecv]
        by_cases h : j = i
        · subst h; simpa [updWrite] using hδ
        · have := (hwrite j hj).2 (by rw [hrole]; decide)
          simpa [updWrite, h] using this

/-- C6: every state the `TryRecoverData` event loop can reach from the
reset counters satisfies the invariant — each link's `size_read` is at
most `size`, and on each requesting link `size_write ≤ size` when the role
is `kHaveData` and `size_write ≤ size_read(recv_link)` when the role is
`kRequestData` or `kPassData` (forwarded bytes never exceed bytes
received on the inbound link). -/
theorem tryRecoverData_invariant (c : RDConfig) (s : RDState)
    (h : RDSteps c rdInit s) : RDInv c s := by
  induction h with
  | refl =>
    exact ⟨fun i => Nat.zero_le _, fun i _ =>
      ⟨fun _ => Nat.zero_le _, fun _ => Nat.le_refl 0⟩⟩
  | tail hsteps hstep ih => exact rdInv_preserved hstep ih

/-- Concrete configuration used by the C6 witness: a `kRequestData` node
with payload size 4, inbound link 0, one requesting outbound link 1. -/
def rdConfigW : RDConfig :=
  { role := RecoverType.kRequestData, size := 4, recv_link := 0,
    req_in := [false, true], buffer_size := 8 }

/-- C6 witness: read 3 bytes on the inbound link, then forward 2 of them
to requesting link 1; the theorem yields the invariant at the reached
state. -/
theorem tryRecoverData_invariant_witness :
    RDInv rdConfigW (updWrite (updRead rdInit 0 3) 1 2) :=
  tryRecoverData_invariant rdConfigW _
    (Relation.ReflTransGen.tail
      (Relation.ReflTransGen.tail Relation.ReflTransGen.refl
        (RDStep.readToArray rdInit 3 rfl (by decide)))
      (RDStep.writeFromArrayReq (updRead rdInit 0 3) 1 2 rfl (by decide) (by decide)))

/-- Helper for C4: full characterization of the `ShortestDist` scan.  For
any accumulators, the scan result never exceeds `res`, is a lower bound
for `hops + 1` over every scanned entry, and either leaves the
accumulators untouched (with `res` already minimal) or returns
`(hops + 1, size)` of the lowest-indexed entry strictly improving `res`
and attaining the final minimum. -/
theorem shortestDistLoop_char (l : List (Int × Nat)) :
    ∀ (i out : Nat) (res : Int) (size : Nat),
      (shortestDistLoop l i out res size).1 ≤ res ∧
      (∀ p ∈ l.enumFrom i, p.1 ≠ out → p.2.1 ≠ intMax →
        (shortestDistLoop l i out res size).1 ≤ p.2.1 + 1) ∧
      ((shortestDistLoop l i out res size = (res, size) ∧
          ∀ p ∈ l.enumFrom i, p.1 ≠ out → p.2.1 ≠ intMax → res ≤ p.2.1 + 1) ∨
        ∃ q ∈ l.enumFrom i, q.1 ≠ out ∧ q.2.1 ≠ intMax ∧ q.2.1 + 1 < res ∧
          shortestDistLoop l i out res size = (q.2.1 + 1, q.2.2) ∧
          ∀ p ∈ l.enumFrom i, p.1 < q.1 → p.1 ≠ out → p.2.1 ≠ intMax →
            q.2.1 + 1 < p.2.1 + 1) := by
  induction l with
  | nil =>
    intro i out res size
    refine ⟨Int.le_refl res, ?_, Or.inl ⟨rfl, ?_⟩⟩ <;>
      intro p hp <;> simp [List.enumFrom] at hp
  | cons d rest ih =>
    intro i out res size
    rw [List.enumFrom_cons]
    by_cases hio : i = out
    · have hR : shortestDistLoop (d :: rest) i out res size =
          shortestDistLoop rest (i + 1) out res size := by
        show (if i = out then shortestDistLoop rest (i + 1) out res size
          else if d.1 = intMax then shortestDistLoop rest (i + 1) out res size
          else if d.1 + 1 < res then shortestDistLoop rest (i + 1) out (d.1 + 1) d.2
          else shortestDistLoop rest (i + 1) out res size) =
          shortestDistLoop rest (i + 1) out res size
        rw [if_pos hio]
      obtain ⟨hb, hm, hd⟩ := ih (i + 1) out res size
      rw [hR]
      refine ⟨hb, ?_, ?_⟩
      · intro p hp hpo hpm
        rcases List.mem_cons.mp hp with h | h
        · exfalso; subst h; exact hpo hio
        · exact hm p h hpo hpm
      · rcases hd with ⟨heq, hmin⟩ | ⟨q, hq, hqo, hqm, hlt, heq, htie⟩
        · refine Or.inl ⟨heq, ?_⟩
          intro p hp hpo hpm
          rcases List.mem_cons.mp hp with h | h
          · exfalso; subst h; exact hpo hio
          · exact hmin p h hpo hpm
        · refine Or.inr ⟨q, List.mem_cons_of_mem _ hq, hqo, hqm, hlt, heq, ?_⟩
          intro p hp hplt hpo hpm
          rcases List.mem_cons.mp hp with h | h
          · exfalso; subst h; exact hpo hio
          · exact htie p h hplt hpo hpm
    · by_cases hdm : d.1 = intMax
      · have hR : shortestDistLoop (d :: rest) i out res size =
            shortestDistLoop rest (i + 1) out res size := by
          show (if i = out then shortestDistLoop rest (i + 1) out res size
            else if d.1 = intMax then shortestDistLoop rest (i + 1) out res size
            else if d.1 + 1 < res then shortestDistLoop rest (i + 1) out (d.1 + 1) d.2
            else shortestDistLoop rest (i + 1) out res size) =
            shortestDistLoop rest (i + 1) out res size
          rw [if_neg hio, if_pos hdm]
        obtain ⟨hb, hm, hd⟩ := ih (i + 1) out res size
        rw [hR]
        refine ⟨hb, ?_, ?_⟩
        · intro p hp hpo hpm
          rcases List.mem_cons.mp hp with h | h
          · exfalso; subst h; exact hpm hdm
          · exact hm p h hpo hpm
        · rcases hd with ⟨heq, hmin⟩ | ⟨q, hq, hqo, hqm, hlt, heq, htie⟩
          · refine Or.inl ⟨heq, ?_⟩
            intro p hp hpo hpm
            rcases List.mem_cons.mp hp with h | h
            · exfalso; subst h; exact hpm hdm
            · exact hmin p h hpo hpm
          · refine Or.inr ⟨q, List.mem_cons_of_mem _ hq, hqo, hqm, hlt, heq, ?_⟩
            intro p hp hplt hpo hpm
            rcases List.mem_cons.mp hp with h | h
            · exfalso; subst h; exact hpm hdm
            · exact htie p h hplt hpo hpm
      · by_cases himp : d.1 + 1 < res
        · have hR : shortestDistLoop (d :: rest) i out res size =
              shortestDistLoop rest (i + 1) out (d.1 + 1) d.2 := by
            show (if i = out then shortestDistLoop rest (i + 1) out res size
              else if d.1 = intMax then shortestDistLoop rest (i + 1) out res size
              else if d.1 + 1 < res then shortestDistLoop rest (i + 1) out (d.1 + 1) d.2
              else shortestDistLoop rest (i + 1) out res size) =
              shortestDistLoop rest (i + 1) out (d.1 + 1) d.2
            rw [if_neg hio, if_neg hdm, if_pos himp]
          obtain ⟨hb, hm, hd⟩ := ih (i + 1) out (d.1 + 1) d.2
          rw [hR]
          refine ⟨le_of_lt (lt_of_le_of_lt hb himp), ?_, ?_⟩
          · intro p hp hpo hpm
            rcases List.mem_cons.mp hp with h | h
            · subst h; exact hb
            · exact hm p h hpo hpm
          · rcases hd with ⟨heq, hmin⟩ | ⟨q, hq, hqo, hqm, hlt, heq, htie⟩
            · refine Or.inr ⟨(i, d), List.mem_cons_self _ _, hio, hdm, himp, heq, ?_⟩
              intro p hp hplt hpo hpm
              rcases List.mem_cons.mp hp with h | h
              · exfalso; subst h; exact lt_irrefl _ hplt
              · exfalso
                exact Nat.not_lt.mpr (enumFrom_fst_le rest (i + 1) p h)
                  (Nat.lt_of_lt_of_le hplt (Nat.le_succ i))
            · refine Or.inr ⟨q, List.mem_cons_of_mem _ hq, hqo, hqm,
                lt_trans hlt himp, heq, ?_⟩
              intro p hp hplt hpo hpm
              rcases List.mem_cons.mp hp with h | h
              · subst h; exact hlt
              · exact htie p h hplt hpo hpm
        · have hR : shortestDistLoop (d :: rest) i out res size =
              shortestDistLoop rest (i + 1) out res size := by
            show (if i = out then shortestDistLoop rest (i + 1) out res size
              else if d.1 = intMax then shortestDistLoop rest (i + 1) out res size
              else if d.1 + 1 < res then shortestDistLoop rest (i + 1) out (d.1 + 1) d.2
              else shortestDistLoop rest (i + 1) out res size) =
              shortestDistLoop rest (i + 1) out res size
            rw [if_neg hio, if_neg hdm, if_neg himp]
          have hge : res ≤ d.1 + 1 := Int.not_lt.mp himp
          obtain ⟨hb, hm, hd⟩ := ih (i + 1) out res size
          rw [hR]
          refine ⟨hb, ?_, ?_⟩
          · intro p hp hpo hpm
            rcases List.mem_cons.mp hp with h | h
            · subst h; exact le_trans hb hge
            · exact hm p h hpo hpm
          · rcases hd with ⟨heq, hmin⟩ | ⟨q, hq, hqo, hqm, hlt, heq, htie⟩
            · refine Or.inl ⟨heq, ?_⟩
              intro p hp hpo hpm
              rcases List.mem_cons.mp hp with h | h
              · subst h; exact hge
              · exact hmin p h hpo hpm
            · refine Or.inr ⟨q, List.mem_cons_of_mem _ hq, hqo, hqm, hlt, heq, ?_⟩
              intro p hp hplt hpo hpm
              rcases List.mem_cons.mp hp with h | h
              · subst h; exact lt_of_lt_of_le hlt hge
              · exact htie p h hplt hpo hpm

/-- C4 counterexample: with a single neighbour at hop count
`intMax - 1` — reachable, and not skipped by the `intMax` filter — the
claim's formula `(min_hops + 1, that neighbour's size)` gives
`(intMax, 5)`, but the scan's strict-improvement test
`dist_in[i].first + 1 < res` fails against the initial `res = intMax`, so
the code returns `(intMax, 0)` and drops the neighbour's size. -/
theorem shortestDist_counterexample :
    ShortestDist (false, 0) [((intMax - 1 : Int), 5)] 1 = (intMax, 0) ∧
    ShortestDist (false, 0) [((intMax - 1 : Int), 5)] 1 ≠ ((intMax - 1) + 1, 5) := by
  constructor <;> decide

/-- C4 (amended): `ShortestDist` returns `(1, own_size)` when the node
holds the payload.  Otherwise it scans `dist_in` excluding `out_index`,
skipping `intMax` entries, and its result is a lower bound for
`hops + 1` over the scanned entries and equals `(min_hops + 1, size)` of
the lowest-indexed neighbour attaining the minimum whenever that minimum
satisfies `min_hops + 1 < intMax`; when no scanned entry has
`hops + 1 < intMax` (in particular when no neighbour is reachable) the
result is `(intMax, 0)` — the distance is `+∞` but the size is `0`, not
the neighbour's size. -/
theorem shortestDist_characterization (s : Nat) (dist_in : List (Int × Nat))
    (out_index : Nat) :
    ShortestDist (true, s) dist_in out_index = (1, s) ∧
    (∀ p ∈ dist_in.enum, p.1 ≠ out_index → p.2.1 ≠ intMax →
      (ShortestDist (false, s) dist_in out_index).1 ≤ p.2.1 + 1) ∧
    ((ShortestDist (false, s) dist_in out_index = (intMax, 0) ∧
        ∀ p ∈ dist_in.enum, p.1 ≠ out_index → p.2.1 ≠ intMax →
          intMax ≤ p.2.1 + 1) ∨
      ∃ q ∈ dist_in.enum, q.1 ≠ out_index ∧ q.2.1 ≠ intMax ∧
        q.2.1 + 1 < intMax ∧
        ShortestDist (false, s) dist_in out_index = (q.2.1 + 1, q.2.2) ∧
        ∀ p ∈ dist_in.enum, p.1 < q.1 → p.1 ≠ out_index → p.2.1 ≠ intMax →
          q.2.1 + 1 < p.2.1 + 1) := by
  have hfalse : ShortestDist (false, s) dist_in out_index =
      shortestDistLoop dist_in 0 out_index intMax 0 := rfl
  have henum : dist_in.enum = dist_in.enumFrom 0 := rfl
  obtain ⟨-, hm, hd⟩ := shortestDistLoop_char dist_in 0 out_index intMax 0
  exact ⟨rfl, by rw [hfalse, henum]; exact hm, by rw [hfalse, henum]; exact hd⟩

end RabitRobust
